import Mathlib

/-
Verification of the peer synchronization engine of obsidian-p2p-sync.

The definitions below are a shallow embedding of the TypeScript sources:
  * `SyncService.handleSyncResponse` (reconciliation of a remote snapshot
    against the local vault and change journal) and the `executeSync`
    closure that turns the computed change list into network actions;
  * `SyncService.handleMessage` for `SESSION_OFFER` (simultaneous-offer
    tie-break) and `FILE_CHUNK` (chunk buffering, progress reporting);
  * `SyncService.transferFile` and `SyncService.reassembleAndWrite`
    (chunked encrypted transfer);
  * `SecurityService.handlePairingResponse` (pairing signature check);
  * `P2PDiscoveryService` peer-table / TTL-timer state transitions.

JavaScript `BigInt` timestamps are modelled as `Int`; byte arrays as
`List Nat`; JS `Map`s as association lists whose operations mirror
`Map.get/set/delete` key semantics.  Cryptographic primitives that live in
the Rust/WASM module (not part of the TypeScript sources) are modelled
symbolically from the spec, and are marked as such in their doc comments.
-/

namespace P2PSync

/-! ## Reconciliation data model (src/sync-service.ts, ui/confirmation-modal.ts) -/

/-- The `type` field of a `SyncChange` (`'push' | 'pull' | 'delete'`). -/
inductive SyncType where
  | push
  | pull
  | delete
deriving DecidableEq, Repr

/-- `SyncChange` from `ui/confirmation-modal.ts`: one planned action of a sync plan. -/
structure SyncChange where
  path : String
  type : SyncType
  reason : String
deriving DecidableEq, Repr

/-- A vault entry as seen through `app.vault.getAbstractFileByPath`: either a
`TFile` (with its `stat.mtime`) or a folder (`TAbstractFile` that is not a `TFile`). -/
inductive VaultEntry where
  | file (path : String) (mtime : Int)
  | folder (path : String)
deriving DecidableEq, Repr

/-- The path of a vault entry. -/
def VaultEntry.path : VaultEntry → String
  | .file p _ => p
  | .folder p => p

/-- One entry of a `SYNC_RESPONSE.files` array: `{path, mtime, isDeleted}`
(`mtime` is transmitted as a decimal string and parsed with `BigInt`). -/
structure RemoteFile where
  path : String
  mtime : Int
  isDeleted : Bool
deriving DecidableEq, Repr

/-- Per-file metadata of the Rust `ChangeJournal` as consumed by the
TypeScript side: `{ mtime, is_deleted }`. -/
structure JournalMeta where
  mtime : Int
  is_deleted : Bool
deriving DecidableEq, Repr

/-- The journal's `files` record: path keyed map, modelled as an association list. -/
abbrev Journal := List (String × JournalMeta)

/-- The `myDeletedFiles` record built at the top of `handleSyncResponse`:
every journal entry with `is_deleted` set, mapped to its `mtime`. -/
def myDeletedFilesOf (journal : Journal) : List (String × Int) :=
  journal.filterMap (fun e => if e.2.is_deleted then some (e.1, e.2.mtime) else none)

/-- `app.vault.getAbstractFileByPath(p)`: the vault entry at path `p`, if any. -/
def findEntry (vault : List VaultEntry) (p : String) : Option VaultEntry :=
  vault.find? (fun e => e.path == p)

/-- `app.vault.getFiles()`: the `TFile`s of the vault (folders excluded), with mtimes. -/
def vaultFiles (vault : List VaultEntry) : List (String × Int) :=
  vault.filterMap (fun e =>
    match e with
    | .file p m => some (p, m)
    | .folder _ => none)

/-- The body of the `for (const remoteFile of remoteFiles)` loop of
`handleSyncResponse`: the changes pushed for one remote entry.

Mirrors the source exactly: if the remote entry is a tombstone and a local
entry exists, a `delete` is emitted when `localMtime < remoteMtime` (a folder
counts with `localMtime = 0`); if the remote entry is live and no local entry
exists, the local journal's deletion time decides between a proactive
push-delete and a pull (the JS truthiness test `myDeletionTime && ...` is the
`≠ 0` conjunct); if the remote entry is live and the local entry is a file,
mtimes are compared with the 2000 ms tolerance window. -/
def changesForRemote (vault : List VaultEntry) (myDeletedFiles : List (String × Int))
    (rf : RemoteFile) : List SyncChange :=
  match findEntry vault rf.path with
  | some localFile =>
    if rf.isDeleted then
      let localMtime : Int :=
        match localFile with
        | .file _ m => m
        | .folder _ => 0
      if localMtime < rf.mtime then
        [{ path := rf.path, type := .delete, reason := "Remote deletion is newer" }]
      else []
    else
      match localFile with
      | .file _ localMtime =>
        let diff : Int := rf.mtime - localMtime
        if 2000 < diff then
          [{ path := rf.path, type := .pull, reason := "Remote is newer" }]
        else if diff < -2000 then
          [{ path := rf.path, type := .push, reason := "Local is newer" }]
        else []
      | .folder _ => []
  | none =>
    if rf.isDeleted then []
    else
      match List.lookup rf.path myDeletedFiles with
      | some myDeletionTime =>
        if myDeletionTime ≠ 0 ∧ rf.mtime < myDeletionTime then
          [{ path := rf.path, type := .push, reason := "Local deletion is newer" }]
        else
          [{ path := rf.path, type := .pull, reason := "New remote file" }]
      | none => [{ path := rf.path, type := .pull, reason := "New remote file" }]

/-- The `changes` list computed by `SyncService.handleSyncResponse`: the
per-remote-entry loop, followed by the loop over local files pushing every
file whose path is mentioned by no remote entry (`remotePaths`). -/
def handleSyncResponseChanges (vault : List VaultEntry) (journal : Journal)
    (remoteFiles : List RemoteFile) : List SyncChange :=
  let myDeletedFiles := myDeletedFilesOf journal
  remoteFiles.flatMap (changesForRemote vault myDeletedFiles) ++
    (vaultFiles vault).filterMap (fun f =>
      if remoteFiles.any (fun rf => rf.path == f.1) then none
      else some { path := f.1, type := SyncType.push, reason := "Remote missing file" })

/-- The network/vault action a `SyncChange` translates to in the
`executeSync` closure of `handleSyncResponse`. -/
inductive ExecAction where
  | deleteLocal (path : String)
  | sendFileRequest (path : String)
  | sendFileDelete (path : String)
  | sendFile (path : String)
deriving DecidableEq, Repr

/-- The dispatch of `executeSync` on one change: `delete` deletes the local
file, `pull` sends `FILE_REQUEST`, and `push` sends `FILE_DELETE` exactly
when the change's reason is `'Local deletion is newer'` (otherwise it
transfers the file). -/
def executeAction (c : SyncChange) : ExecAction :=
  match c.type with
  | .delete => .deleteLocal c.path
  | .pull => .sendFileRequest c.path
  | .push =>
    if c.reason == "Local deletion is newer" then .sendFileDelete c.path
    else .sendFile c.path

/-- The vault a journal describes when "local files match the non-tombstone
entries": one `TFile` per live journal entry, with the journal's mtime. -/
def vaultOfJournal (journal : Journal) : List VaultEntry :=
  journal.filterMap (fun e =>
    if e.2.is_deleted then none else some (.file e.1 e.2.mtime))

/-- A `SYNC_RESPONSE` snapshot that is an identical copy of the journal:
same paths, same mtimes, same tombstone flags. -/
def snapshotOfJournal (journal : Journal) : List RemoteFile :=
  journal.map (fun e => { path := e.1, mtime := e.2.mtime, isDeleted := e.2.is_deleted })

/-! ## Simultaneous session-offer tie-break (SyncService.handleMessage, SESSION_OFFER) -/

/-- An ephemeral key-exchange handle as stored in
`pendingSessionOffers : Map<peerId, keyExchange>`; its contents play no role
in the tie-break decision, only its presence per peer does. -/
structure KeyExchange where
  handle : Nat
deriving DecidableEq, Repr

/-- What the `SESSION_OFFER` branch does with an incoming offer: `ignored`
means the handler returned without answering; `answered` means it proceeded
to `securityService.handleSessionOffer` and the `SESSION_ANSWER` send. -/
inductive OfferOutcome where
  | ignored
  | answered
deriving DecidableEq, Repr

/-- The `SESSION_OFFER` branch of `SyncService.handleMessage`: when an offer
of our own is pending for the sender, device ids are compared
lexicographically — the smaller id returns at once (Leader), the larger id
deletes its own pending offer and answers (Follower); with no pending offer
the incoming offer is simply answered. -/
def sessionOfferStep (myDeviceId : String) (pending : List (String × KeyExchange))
    (peerId : String) (peerDeviceId : String) :
    OfferOutcome × List (String × KeyExchange) :=
  if pending.any (fun e => e.1 == peerId) then
    if myDeviceId < peerDeviceId then (.ignored, pending)
    else (.answered, pending.filter (fun e => e.1 ≠ peerId))
  else (.answered, pending)

/-! ## Chunked encrypted transfer (SyncService.transferFile / reassembleAndWrite) -/

/-- Modelled from the spec: a ciphertext produced by the WASM `encrypt_data`
(the `data`/`nonce` pair of the wire format), represented symbolically by the
key it was encrypted under and the plaintext it carries — decryption under
the same key recovers exactly that plaintext, under any other key it fails. -/
structure Encrypted where
  key : String
  plain : List Nat
deriving DecidableEq, Repr

/-- Modelled from the spec: `wasm.encrypt_data(sessionKey, plaintext)`
("encrypt each chunk independently under the session key with a fresh nonce"). -/
def encrypt_data (key : String) (plain : List Nat) : Encrypted := ⟨key, plain⟩

/-- Modelled from the spec: authenticated decryption, the inverse of
`encrypt_data`; fails unless the key matches. -/
def decrypt_data (key : String) (c : Encrypted) : Option (List Nat) :=
  if c.key = key then some c.plain else none

/-- A Rust `FileChunk` as returned by `prepare_transfer`:
`{file_path, chunk_index, total_chunks, data, nonce}` with the
ciphertext/nonce pair modelled by `Encrypted`. -/
structure FileChunk where
  file_path : String
  chunk_index : Nat
  total_chunks : Nat
  data : Encrypted
deriving DecidableEq, Repr

/-- The fixed transfer chunk size (reference: 64 KB). -/
def CHUNK_SIZE : Nat := 65536

/-- Modelled from the spec: `TransferManager.prepare_transfer` (Rust/WASM,
not among the TypeScript sources) splits the file bytes into fixed-size
64 KB chunks and encrypts each independently under the session key; an empty
input therefore yields an empty chunk list, which is precisely the case the
`chunks.length === 0` workaround branch of `transferFile` exists to repair. -/
def prepare_transfer (filePath : String) (content : List Nat) (sessionKey : String) :
    List FileChunk :=
  let numChunks := (content.length + CHUNK_SIZE - 1) / CHUNK_SIZE
  (List.range numChunks).map (fun i =>
    { file_path := filePath, chunk_index := i, total_chunks := numChunks,
      data := encrypt_data sessionKey ((content.drop (i * CHUNK_SIZE)).take CHUNK_SIZE) })

/-- A `FILE_CHUNK` wire message (`{filePath, chunkIndex, totalChunks, data, nonce}`). -/
structure FileChunkMsg where
  filePath : String
  chunkIndex : Nat
  totalChunks : Nat
  data : Encrypted
deriving DecidableEq, Repr

/-- The sequence of `FILE_CHUNK` messages `SyncService.transferFile` sends
for one file: when `prepare_transfer` returned no chunks and the content is
empty, the empty-file branch sends a single chunk with `totalChunks = 1`
whose ciphertext is `encrypt_data(sessionKey, [])`; then every prepared
chunk is sent in order. -/
def transferFileMessages (filePath : String) (content : List Nat) (sessionKey : String) :
    List FileChunkMsg :=
  let chunks := prepare_transfer filePath content sessionKey
  (if chunks.length = 0 ∧ content.length = 0 then
    [{ filePath := filePath, chunkIndex := 0, totalChunks := 1,
       data := encrypt_data sessionKey [] }]
  else []) ++
  chunks.map (fun c =>
    { filePath := c.file_path, chunkIndex := c.chunk_index,
      totalChunks := c.total_chunks, data := c.data })

/-- `transfer.chunks.set(message.chunkIndex, message)`: JS `Map.set` — an
existing index is overwritten in place, a new index is appended (JS `Map`
iteration follows insertion order). -/
def insertChunk (buf : List (Nat × FileChunkMsg)) (m : FileChunkMsg) :
    List (Nat × FileChunkMsg) :=
  if buf.any (fun e => e.1 == m.chunkIndex) then
    buf.map (fun e => if e.1 == m.chunkIndex then (m.chunkIndex, m) else e)
  else buf ++ [(m.chunkIndex, m)]

/-- Delivering a sequence of `FILE_CHUNK` messages of one transfer into an
initially empty chunk buffer, in arrival order. -/
def deliverChunks (msgs : List FileChunkMsg) : List (Nat × FileChunkMsg) :=
  msgs.foldl insertChunk []

/-- `TransferManager.decrypt_chunk` — modelled from the spec: authenticated
decryption of one received chunk under the session key. -/
def decrypt_chunk (m : FileChunkMsg) (sessionKey : String) : Option (List Nat) :=
  decrypt_data sessionKey m.data

/-- `SyncService.reassembleAndWrite`: sort the buffered chunks by
`chunkIndex` (`.sort((a, b) => a[0] - b[0])`), decrypt each in index order,
concatenate, and write the result to the vault.  Returns the written byte
string, or `none` when any chunk fails to decrypt (the `catch` path: nothing
is written and the transfer is reported failed). -/
def reassembleAndWrite (buf : List (Nat × FileChunkMsg)) (sessionKey : String) :
    Option (List Nat) :=
  let sortedChunks := (buf.insertionSort (fun a b => a.1 ≤ b.1)).map (fun e => e.2)
  (sortedChunks.mapM (fun m => decrypt_chunk m sessionKey)).map List.flatten

/-- The `state` field of a `TransferStatus`. -/
inductive TransferLifecycle where
  | pending
  | transferring
  | completed
  | failed
deriving DecidableEq, Repr

/-- The state `handleMessage` keeps per incoming transfer key: the
`incomingChunks` entry (chunk buffer, declared total) together with the
`activeTransfers` status fields the observers see (`progress`, `state`). -/
structure IncomingTransfer where
  chunks : List (Nat × FileChunkMsg)
  total : Nat
  progress : Rat
  state : TransferLifecycle
deriving DecidableEq, Repr

/-- The `FILE_CHUNK` branch of `SyncService.handleMessage` for one transfer
key: the exposed progress is set to `(message.chunkIndex + 1) / message.totalChunks`,
the chunk is buffered, and when the buffer size reaches the declared total
the transfer completes with `progress = 1`. -/
def handleFileChunk (st : Option IncomingTransfer) (m : FileChunkMsg) : IncomingTransfer :=
  let cur : IncomingTransfer :=
    match st with
    | some t => t
    | none => { chunks := [], total := m.totalChunks, progress := 0, state := .transferring }
  let progress1 : Rat := ((m.chunkIndex : Rat) + 1) / (m.totalChunks : Rat)
  let chunks1 := insertChunk cur.chunks m
  if chunks1.length = cur.total then
    { chunks := chunks1, total := cur.total, progress := 1, state := .completed }
  else
    { chunks := chunks1, total := cur.total, progress := progress1, state := .transferring }

/-- Folding a whole arrival sequence through the `FILE_CHUNK` handler,
starting from no transfer state. -/
def handleFileChunks (msgs : List FileChunkMsg) : Option IncomingTransfer :=
  msgs.foldl (fun st m => some (handleFileChunk st m)) none

/-! ## Pairing response verification (src/security-service.ts) -/

/-- Modelled from the spec: a detached signature produced by
`identity.sign` (WASM), represented symbolically by the signing secret key
and the exact payload that was signed. -/
structure Signature where
  signerSecretKey : String
  signedData : String
deriving DecidableEq, Repr

/-- Modelled from the spec: the public key belonging to a secret key (key
generation; distinct secrets give distinct public keys). -/
def public_key_of (secretKey : String) : String := "pk:" ++ secretKey

/-- Modelled from the spec: `wasm.verify_signature(publicKey, data, signature)`
— succeeds exactly when the signature was produced with the secret key
matching `publicKey` over exactly `data`; "verification failures return
`false`, never throw." -/
def verify_signature (publicKey : String) (data : String) (sig : Signature) : Bool :=
  public_key_of sig.signerSecretKey == publicKey && sig.signedData == data

/-- Modelled from the spec: `identity.sign(bytes)`. -/
def sign (secretKey : String) (data : String) : Signature := ⟨secretKey, data⟩

/-- The `status` field of a pairing response. -/
inductive PairingStatus where
  | accepted
  | rejected
deriving DecidableEq, Repr

/-- The payload of a `pairing_response` message. -/
structure PairingResponsePayload where
  requestId : String
  responderDeviceId : String
  responderName : String
  responderPublicKey : String
  signature : Signature
  status : PairingStatus
deriving DecidableEq, Repr

/-- How the pending `initiatePairing` promise is settled. -/
inductive PairingOutcome where
  | resolvedTrue
  | rejectedInvalidSignature
  | rejectedByPeer
deriving DecidableEq, Repr

/-- An event emitted on the `SecurityService` emitter. -/
inductive SecurityEvent where
  | pairing_success (deviceId : String) (name : String)
deriving DecidableEq, Repr

/-- The observable result of `handlePairingResponse`: events emitted, how the
pending request (if any) was settled, and the surviving pending request ids. -/
structure PairingResponseResult where
  events : List SecurityEvent
  outcome : Option PairingOutcome
  pendingRequests : List String
deriving DecidableEq, Repr

/-- `SecurityService.handlePairingResponse`: look up the pending request by
the response's `requestId` (unknown ids are ignored); on `accepted`, verify
the signature against the responder's public key over
`requestId + myPublicKey`; a valid signature resolves the promise and emits
`pairing_success`, an invalid one rejects with "Invalid signature from peer"
and emits nothing; a non-accepted status rejects with "Pairing rejected by
peer".  In every pending case the request id is removed. -/
def handlePairingResponse (myPublicKey : String) (pendingRequests : List String)
    (msg : PairingResponsePayload) : PairingResponseResult :=
  if msg.requestId ∈ pendingRequests then
    if msg.status = .accepted then
      let dataToVerify := msg.requestId ++ myPublicKey
      if verify_signature msg.responderPublicKey dataToVerify msg.signature then
        { events := [.pairing_success msg.responderDeviceId msg.responderName],
          outcome := some .resolvedTrue,
          pendingRequests := pendingRequests.filter (fun r => r ≠ msg.requestId) }
      else
        { events := [], outcome := some .rejectedInvalidSignature,
          pendingRequests := pendingRequests.filter (fun r => r ≠ msg.requestId) }
    else
      { events := [], outcome := some .rejectedByPeer,
        pendingRequests := pendingRequests.filter (fun r => r ≠ msg.requestId) }
  else
    { events := [], outcome := none, pendingRequests := pendingRequests }

/-- `SecurityService.addPairedDevice`: append the device id to the paired
list unless it is already present. -/
def addPairedDevice (deviceId : String) (pairedDevices : List String) : List String :=
  if deviceId ∈ pairedDevices then pairedDevices else pairedDevices ++ [deviceId]

/-- The effect of the emitted security events on the persisted paired-device
list (the `pairing_success` listener records the trust via `addPairedDevice`). -/
def applyPairingEvents (events : List SecurityEvent) (pairedDevices : List String) :
    List String :=
  events.foldl
    (fun l e =>
      match e with
      | .pairing_success d _ => addPairedDevice d l)
    pairedDevices

/-! ## Discovery service state (src/discovery-service.ts) -/

/-- `DiscoveredPeerData` from `src/types.ts`. -/
structure DiscoveredPeerData where
  id : String
  name : String
  device_id : String
  last_seen_timestamp : Int
  addresses : List String
  service_port : Nat
deriving DecidableEq, Repr

/-- The mutable state of `P2PDiscoveryService` relevant to the peer-table /
TTL-timer invariant: the `peers` map, the key set of the `ttlTimers` map, and
the `isDiscovering` flag. -/
structure DiscoveryState where
  peers : List (String × DiscoveredPeerData)
  ttlTimers : List String
  isDiscovering : Bool
deriving DecidableEq, Repr

/-- `this.peers.set(peer.id, peer)`: JS `Map.set` key semantics. -/
def peersSet (peers : List (String × DiscoveredPeerData)) (p : DiscoveredPeerData) :
    List (String × DiscoveredPeerData) :=
  if peers.any (fun e => e.1 == p.id) then
    peers.map (fun e => if e.1 == p.id then (p.id, p) else e)
  else peers ++ [(p.id, p)]

/-- `this.peers.has(peerId)`. -/
def peersHas (peers : List (String × DiscoveredPeerData)) (peerId : String) : Bool :=
  peers.any (fun e => e.1 == peerId)

/-- `resetPeerTTL`: clear any existing timer for the peer, then set a fresh
one (`ttlTimers.set(peerId, timer)`). -/
def resetPeerTTL (timers : List String) (peerId : String) : List String :=
  (timers.filter (fun t => t ≠ peerId)) ++ [peerId]

/-- `clearPeerTTLTimer`: delete the peer's timer entry if present. -/
def clearPeerTTLTimer (timers : List String) (peerId : String) : List String :=
  timers.filter (fun t => t ≠ peerId)

/-- The public operations of `P2PDiscoveryService` that touch `peers` or
`ttlTimers`.  A TTL expiry callback invokes `removePeer`, so it is the
`removePeer` operation. -/
inductive DiscoveryOp where
  | handleAnnouncement (p : DiscoveredPeerData) (isNewOrUpdated : Bool)
  | addPeer (p : DiscoveredPeerData)
  | removePeer (peerId : String)
  | startDiscovery
  | stopDiscovery
  | clearPeers
deriving DecidableEq, Repr

/-- `P2PDiscoveryService.removePeer`: no-op for an unknown peer; otherwise
delete the peer from the table and clear its TTL timer. -/
def removePeerStep (s : DiscoveryState) (peerId : String) : DiscoveryState :=
  if peersHas s.peers peerId then
    { s with peers := s.peers.filter (fun e => e.1 ≠ peerId),
             ttlTimers := clearPeerTTLTimer s.ttlTimers peerId }
  else s

/-- One public operation of `P2PDiscoveryService` as a state transition:
`handleDiscoveryMessage` (when the Rust node judged the announcement new or
updated) and `addPeer` both `peers.set` then `resetPeerTTL`; `removePeer`
deletes table entry and timer; `startDiscovery` twice is a no-op and touches
neither table; `stopDiscovery` clears all TTL timers and leaves the peer
table untouched; `clearPeers` empties both. -/
def discoveryStep (s : DiscoveryState) (op : DiscoveryOp) : DiscoveryState :=
  match op with
  | .handleAnnouncement p isNewOrUpdated =>
    if isNewOrUpdated then
      { s with peers := peersSet s.peers p, ttlTimers := resetPeerTTL s.ttlTimers p.id }
    else s
  | .addPeer p =>
    { s with peers := peersSet s.peers p, ttlTimers := resetPeerTTL s.ttlTimers p.id }
  | .removePeer peerId => removePeerStep s peerId
  | .startDiscovery =>
    if s.isDiscovering then s else { s with isDiscovering := true }
  | .stopDiscovery =>
    if s.isDiscovering then { s with isDiscovering := false, ttlTimers := [] }
    else s
  | .clearPeers => { s with peers := [], ttlTimers := [] }

/-- The invariant: every peer id with an active TTL timer is a key of the
peer table. -/
def TimersCovered (s : DiscoveryState) : Prop :=
  ∀ peerId ∈ s.ttlTimers, peersHas s.peers peerId = true

/-! ## Helper lemmas -/

theorem string_append_right_cancel {a b c : String} (h : a ++ c = b ++ c) : a = b := by
  have hd := congrArg String.data h
  simp only [String.data_append] at hd
  exact String.ext (List.append_cancel_right hd)

theorem changesForRemote_path (v : List VaultEntry) (d : List (String × Int))
    (rf : RemoteFile) : ∀ c ∈ changesForRemote v d rf, c.path = rf.path := by
  intro c hc
  unfold changesForRemote at hc
  split at hc
  · split at hc
    · split at hc <;> simp_all
    · split at hc
      · dsimp only at hc
        split at hc
        · simp_all
        · split at hc <;> simp_all
      · simp_all
  · split at hc
    · simp_all
    · split at hc
      · split at hc <;> simp_all
      · simp_all

theorem vaultFiles_mem_path (v : List VaultEntry) (f : String × Int)
    (hf : f ∈ vaultFiles v) : ∃ e ∈ v, e.path = f.1 := by
  unfold vaultFiles at hf
  obtain ⟨e, he, hmap⟩ := List.mem_filterMap.mp hf
  cases e with
  | file p m =>
    obtain rfl : (p, m) = f := Option.some.inj hmap
    exact ⟨.file p m, he, rfl⟩
  | folder p => simp at hmap

theorem findEntry_vaultOfJournal_not_mem (journal : Journal) (q : String)
    (h : q ∉ journal.map Prod.fst) : findEntry (vaultOfJournal journal) q = none := by
  unfold findEntry
  apply List.find?_eq_none.mpr
  intro e he
  unfold vaultOfJournal at he
  obtain ⟨⟨a, ma⟩, hmem, hmap⟩ := List.mem_filterMap.mp he
  split at hmap
  · exact absurd hmap (by simp)
  · obtain rfl : VaultEntry.file a ma.mtime = e := Option.some.inj hmap
    have ha : a ∈ journal.map Prod.fst := List.mem_map.mpr ⟨(a, ma), hmem, rfl⟩
    simp only [VaultEntry.path, beq_iff_eq]
    exact fun hq => h (hq ▸ ha)

theorem findEntry_vaultOfJournal (journal : Journal) (q : String) (meta : JournalMeta)
    (hnodup : (journal.map Prod.fst).Nodup) (hmem : (q, meta) ∈ journal) :
    findEntry (vaultOfJournal journal) q =
      if meta.is_deleted then none else some (.file q meta.mtime) := by
  induction journal with
  | nil => cases hmem
  | cons hd tl ih =>
    obtain ⟨a, ma⟩ := hd
    rw [List.map_cons] at hnodup
    have hnotin := (List.nodup_cons.mp hnodup).1
    have hnd_tl := (List.nodup_cons.mp hnodup).2
    rcases List.mem_cons.mp hmem with heq | htl
    · injection heq with h1 h2
      subst h1
      subst h2
      by_cases hdel : meta.is_deleted
      · simp only [hdel, if_true]
        have hrest : vaultOfJournal ((q, meta) :: tl) = vaultOfJournal tl := by
          simp [vaultOfJournal, hdel]
        rw [hrest]
        exact findEntry_vaultOfJournal_not_mem tl q hnotin
      · have hrest : vaultOfJournal ((q, meta) :: tl) =
            .file q meta.mtime :: vaultOfJournal tl := by
          simp [vaultOfJournal, hdel]
        rw [hrest]
        simp [findEntry, hdel, VaultEntry.path]
    · have hqa : q ≠ a := by
        intro h
        exact hnotin (h ▸ List.mem_map.mpr ⟨(q, meta), htl, rfl⟩)
      by_cases hdel : ma.is_deleted
      · have hrest : vaultOfJournal ((a, ma) :: tl) = vaultOfJournal tl := by
          simp [vaultOfJournal, hdel]
        rw [hrest]
        exact ih hnd_tl htl
      · have hrest : vaultOfJournal ((a, ma) :: tl) =
            .file a ma.mtime :: vaultOfJournal tl := by
          simp [vaultOfJournal, hdel]
        rw [hrest]
        have hne : ((VaultEntry.file a ma.mtime).path == q) = false := by
          simp [VaultEntry.path]
          exact fun h => hqa h.symm
        unfold findEntry
        rw [List.find?_cons_of_neg _ (by simp [hne])]
        exact ih hnd_tl htl

theorem vaultOfJournal_mem (journal : Journal) (e : VaultEntry)
    (he : e ∈ vaultOfJournal journal) :
    ∃ qm ∈ journal, qm.2.is_deleted = false ∧ e = .file qm.1 qm.2.mtime := by
  unfold vaultOfJournal at he
  obtain ⟨⟨a, ma⟩, hmem, hmap⟩ := List.mem_filterMap.mp he
  split at hmap
  · exact absurd hmap (by simp)
  · rename_i hdel
    exact ⟨(a, ma), hmem, by simpa using hdel, (Option.some.inj hmap).symm⟩

/-! ## Claim theorems -/

/-- C2: on an incoming `SESSION_OFFER` from a peer for which an offer of our
own is pending, with distinct device ids: the lexicographically smaller own
device id ignores the incoming offer and keeps its pending offer unchanged;
the larger own device id removes its pending offer for that peer and answers
the incoming offer. -/
theorem sessionOffer_tiebreak (myDeviceId peerDeviceId peerId : String)
    (pending : List (String × KeyExchange))
    (hne : myDeviceId ≠ peerDeviceId)
    (hpend : pending.any (fun e => e.1 == peerId) = true) :
    (myDeviceId < peerDeviceId →
      sessionOfferStep myDeviceId pending peerId peerDeviceId = (.ignored, pending)) ∧
    (peerDeviceId < myDeviceId →
      sessionOfferStep myDeviceId pending peerId peerDeviceId =
        (.answered, pending.filter (fun e => e.1 ≠ peerId))) := by
  constructor
  · intro hlt
    simp [sessionOfferStep, hpend, hlt]
  · intro hgt
    have hnlt : ¬ myDeviceId < peerDeviceId := lt_asymm hgt
    simp [sessionOfferStep, hpend, hnlt]

/-- C2 witness: with own id `"a"` against peer device id `"b"` the pending
offer for peer connection `"p"` survives and the offer is ignored; with own
id `"b"` against `"a"` the pending offer is dropped and the offer answered. -/
theorem sessionOffer_tiebreak_witness :
    sessionOfferStep "a" [("p", ⟨0⟩)] "p" "b" = (.ignored, [("p", ⟨0⟩)]) ∧
    sessionOfferStep "b" [("p", ⟨0⟩)] "p" "a" = (.answered, []) := by
  constructor
  · exact (sessionOffer_tiebreak "a" "b" "p" [("p", ⟨0⟩)] (by decide) (by decide)).1
      (by rw [String.lt_iff_toList_lt]; decide)
  · have h := (sessionOffer_tiebreak "b" "a" "p" [("p", ⟨0⟩)] (by decide) (by decide)).2
      (by rw [String.lt_iff_toList_lt]; decide)
    simpa using h

/-- C6: transferring a file with empty content sends exactly one
`FILE_CHUNK` message, with `totalChunks = 1` and a ciphertext that decrypts
(under the session key) to zero plaintext bytes — never zero chunks. -/
theorem transferFile_empty_one_chunk (filePath sessionKey : String) :
    transferFileMessages filePath [] sessionKey =
      [{ filePath := filePath, chunkIndex := 0, totalChunks := 1,
         data := encrypt_data sessionKey [] }] ∧
    decrypt_data sessionKey (encrypt_data sessionKey []) = some [] := by
  constructor
  · rfl
  · simp [decrypt_data, encrypt_data]

/-- C4 counterexample: in the spec's scenario (local `note.md` with
`mtime = 100`, remote snapshot holding `note.md` live with `mtime = 300`)
the mtime difference is 200 ms, inside the 2000 ms tolerance window, so
reconciliation emits no action at all — in particular no `pull`. -/
theorem reconcile_100_vs_300_counterexample :
    handleSyncResponseChanges [.file "note.md" 100] []
      [{ path := "note.md", mtime := 300, isDeleted := false }] = [] := by
  rfl

/-- C4 amended: with local `note.md` at `mtime = 100`, a remote snapshot
holding `note.md` live at `mtime = 300` yields no action (the 200 ms
difference is within the 2000 ms tolerance); `pull(note.md)` is emitted once
the remote mtime exceeds the local one by more than 2000 ms, e.g. at
`mtime = 3000`. -/
theorem reconcile_100_vs_3000_pull :
    handleSyncResponseChanges [.file "note.md" 100] []
      [{ path := "note.md", mtime := 3000, isDeleted := false }] =
      [{ path := "note.md", type := SyncType.pull, reason := "Remote is newer" }] ∧
    handleSyncResponseChanges [.file "note.md" 100] []
      [{ path := "note.md", mtime := 300, isDeleted := false }] = [] := by
  constructor <;> rfl

/-- C1: for a remote snapshot entry that is a tombstone with deletion time
`t2` on a path (mentioned by no other remote entry) whose local vault entry
is a non-deleted file with modification time `t1`: reconciliation emits a
`delete` action for that path when `t1 < t2`, and emits no action at all for
that path when `t2 < t1`. -/
theorem tombstone_vs_live_file (vault : List VaultEntry) (journal : Journal)
    (remoteFiles : List RemoteFile) (p : String) (t1 t2 : Int)
    (hlocal : findEntry vault p = some (.file p t1))
    (hremote : remoteFiles.filter (fun rf => rf.path == p) =
      [{ path := p, mtime := t2, isDeleted := true }]) :
    (t1 < t2 →
      { path := p, type := SyncType.delete, reason := "Remote deletion is newer" } ∈
        handleSyncResponseChanges vault journal remoteFiles) ∧
    (t2 < t1 →
      ∀ c ∈ handleSyncResponseChanges vault journal remoteFiles, c.path ≠ p) := by
  have hmem : ({ path := p, mtime := t2, isDeleted := true } : RemoteFile) ∈ remoteFiles := by
    have hm : ({ path := p, mtime := t2, isDeleted := true } : RemoteFile) ∈
        remoteFiles.filter (fun rf => rf.path == p) := by
      rw [hremote]; exact List.mem_singleton_self _
    exact (List.mem_filter.mp hm).1
  have hcfr : changesForRemote vault (myDeletedFilesOf journal)
      { path := p, mtime := t2, isDeleted := true } =
      if t1 < t2 then
        [{ path := p, type := SyncType.delete, reason := "Remote deletion is newer" }]
      else [] := by
    simp [changesForRemote, hlocal]
  constructor
  · intro hlt
    unfold handleSyncResponseChanges
    dsimp only
    apply List.mem_append_left
    exact List.mem_flatMap.mpr
      ⟨{ path := p, mtime := t2, isDeleted := true }, hmem, by rw [hcfr]; simp [hlt]⟩
  · intro hgt c hc hpc
    unfold handleSyncResponseChanges at hc
    dsimp only at hc
    rcases List.mem_append.mp hc with h1 | h2
    · obtain ⟨rf, hrf, hcin⟩ := List.mem_flatMap.mp h1
      have hpath : c.path = rf.path := changesForRemote_path _ _ _ c hcin
      have hrfp : rf.path = p := by rw [← hpath, hpc]
      have hrfin : rf ∈ remoteFiles.filter (fun rf => rf.path == p) :=
        List.mem_filter.mpr ⟨hrf, by simp [hrfp]⟩
      rw [hremote] at hrfin
      have hrfeq := List.mem_singleton.mp hrfin
      subst hrfeq
      rw [hcfr] at hcin
      have hnlt : ¬ t1 < t2 := by omega
      simp [hnlt] at hcin
    · obtain ⟨f, hf, hsome⟩ := List.mem_filterMap.mp h2
      split at hsome
      · exact absurd hsome (by simp)
      · rename_i hany
        obtain rfl :
            ({ path := f.1, type := SyncType.push, reason := "Remote missing file" } :
              SyncChange) = c := Option.some.inj hsome
        have hfp : f.1 = p := hpc
        exact hany (List.any_eq_true.mpr
          ⟨{ path := p, mtime := t2, isDeleted := true }, hmem, by simp [hfp]⟩)

/-- C1 witness: with local file `"a.md"` at mtime 100 and a remote tombstone
at time 200 a `delete` is emitted; with the tombstone at time 50 no action
touches `"a.md"`. -/
theorem tombstone_vs_live_file_witness :
    ({ path := "a.md", type := SyncType.delete, reason := "Remote deletion is newer" } :
        SyncChange) ∈
      handleSyncResponseChanges [.file "a.md" 100] []
        [{ path := "a.md", mtime := 200, isDeleted := true }] ∧
    ∀ c ∈ handleSyncResponseChanges [.file "a.md" 100] []
        [{ path := "a.md", mtime := 50, isDeleted := true }], c.path ≠ "a.md" := by
  constructor
  · exact (tombstone_vs_live_file [.file "a.md" 100] []
      [{ path := "a.md", mtime := 200, isDeleted := true }] "a.md" 100 200
      (by rfl) (by rfl)).1 (by omega)
  · exact (tombstone_vs_live_file [.file "a.md" 100] []
      [{ path := "a.md", mtime := 50, isDeleted := true }] "a.md" 100 50
      (by rfl) (by rfl)).2 (by omega)

/-- C3 counterexample: the remote snapshot holds a live entry for `"a.md"`
and no local file `"a.md"` exists — but a local FOLDER named `"a.md"` does.
The claim demands a `pull("a.md")`, yet reconciliation emits no action at
all: `getAbstractFileByPath` returns the folder, so the no-local-entry
branch is skipped and the `instanceof TFile` branch does not match. -/
theorem live_remote_folder_counterexample :
    handleSyncResponseChanges [.folder "a.md"] []
      [{ path := "a.md", mtime := 200, isDeleted := false }] = [] := by
  rfl

/-- C3 amended: for a remote snapshot entry that is live at time `r ≥ 0` on a
path with no local vault entry (neither file nor folder) and mentioned by no
other remote entry: if the local journal holds a tombstone for that path with
deletion time strictly newer than `r`, reconciliation emits a push action
whose execution sends `FILE_DELETE` for the path (and no pull for the path);
otherwise it emits `pull(path)`. -/
theorem live_remote_no_local (vault : List VaultEntry) (journal : Journal)
    (remoteFiles : List RemoteFile) (p : String) (r : Int)
    (hr : 0 ≤ r)
    (hlocal : findEntry vault p = none)
    (hremote : remoteFiles.filter (fun rf => rf.path == p) =
      [{ path := p, mtime := r, isDeleted := false }]) :
    (∀ t, List.lookup p (myDeletedFilesOf journal) = some t → r < t →
      ({ path := p, type := SyncType.push, reason := "Local deletion is newer" } ∈
          handleSyncResponseChanges vault journal remoteFiles ∧
        executeAction
            { path := p, type := SyncType.push, reason := "Local deletion is newer" } =
          ExecAction.sendFileDelete p ∧
        ∀ c ∈ handleSyncResponseChanges vault journal remoteFiles,
          c.path = p → c.type ≠ SyncType.pull)) ∧
    ((∀ t, List.lookup p (myDeletedFilesOf journal) = some t → t ≤ r) →
      { path := p, type := SyncType.pull, reason := "New remote file" } ∈
        handleSyncResponseChanges vault journal remoteFiles) := by
  have hmem : ({ path := p, mtime := r, isDeleted := false } : RemoteFile) ∈ remoteFiles := by
    have hm : ({ path := p, mtime := r, isDeleted := false } : RemoteFile) ∈
        remoteFiles.filter (fun rf => rf.path == p) := by
      rw [hremote]; exact List.mem_singleton_self _
    exact (List.mem_filter.mp hm).1
  constructor
  · intro t hlook hrt
    have hcfr : changesForRemote vault (myDeletedFilesOf journal)
        { path := p, mtime := r, isDeleted := false } =
        [{ path := p, type := SyncType.push, reason := "Local deletion is newer" }] := by
      have ht0 : t ≠ 0 := by omega
      simp [changesForRemote, hlocal, hlook, ht0, hrt]
    refine ⟨?_, rfl, ?_⟩
    · unfold handleSyncResponseChanges
      dsimp only
      apply List.mem_append_left
      exact List.mem_flatMap.mpr
        ⟨{ path := p, mtime := r, isDeleted := false }, hmem, by rw [hcfr]; simp⟩
    · intro c hc hpc
      unfold handleSyncResponseChanges at hc
      dsimp only at hc
      rcases List.mem_append.mp hc with h1 | h2
      · obtain ⟨rf, hrf, hcin⟩ := List.mem_flatMap.mp h1
        have hpath : c.path = rf.path := changesForRemote_path _ _ _ c hcin
        have hrfp : rf.path = p := by rw [← hpath, hpc]
        have hrfin : rf ∈ remoteFiles.filter (fun rf => rf.path == p) :=
          List.mem_filter.mpr ⟨hrf, by simp [hrfp]⟩
        rw [hremote] at hrfin
        have hrfeq := List.mem_singleton.mp hrfin
        subst hrfeq
        rw [hcfr] at hcin
        have hceq := List.mem_singleton.mp hcin
        subst hceq
        simp
      · obtain ⟨f, hf, hsome⟩ := List.mem_filterMap.mp h2
        split at hsome
        · exact absurd hsome (by simp)
        · rename_i hany
          obtain rfl :
              ({ path := f.1, type := SyncType.push, reason := "Remote missing file" } :
                SyncChange) = c := Option.some.inj hsome
          intro _
          have hfp : f.1 = p := hpc
          exact hany (List.any_eq_true.mpr
            ⟨{ path := p, mtime := r, isDeleted := false }, hmem, by simp [hfp]⟩)
  · intro hle
    have hcfr : changesForRemote vault (myDeletedFilesOf journal)
        { path := p, mtime := r, isDeleted := false } =
        [{ path := p, type := SyncType.pull, reason := "New remote file" }] := by
      rcases hlk : List.lookup p (myDeletedFilesOf journal) with _ | t
      · simp [changesForRemote, hlocal, hlk]
      · have hnlt : ¬ r < t := by have := hle t hlk; omega
        simp [changesForRemote, hlocal, hlk, hnlt]
    unfold handleSyncResponseChanges
    dsimp only
    apply List.mem_append_left
    exact List.mem_flatMap.mpr
      ⟨{ path := p, mtime := r, isDeleted := false }, hmem, by rw [hcfr]; simp⟩

/-- C3 witness: with no local vault entry, a live remote `"a.md"` at time
200 against a local journal tombstone at time 500 yields the proactive
push-delete; with an empty journal it yields `pull("a.md")`. -/
theorem live_remote_no_local_witness :
    ({ path := "a.md", type := SyncType.push, reason := "Local deletion is newer" } :
        SyncChange) ∈
      handleSyncResponseChanges [] [("a.md", { mtime := 500, is_deleted := true })]
        [{ path := "a.md", mtime := 200, isDeleted := false }] ∧
    ({ path := "a.md", type := SyncType.pull, reason := "New remote file" } :
        SyncChange) ∈
      handleSyncResponseChanges [] []
        [{ path := "a.md", mtime := 200, isDeleted := false }] := by
  constructor
  · exact ((live_remote_no_local [] [("a.md", { mtime := 500, is_deleted := true })]
      [{ path := "a.md", mtime := 200, isDeleted := false }] "a.md" 200
      (by omega) (by rfl) (by rfl)).1 500 (by rfl) (by omega)).1
  · exact (live_remote_no_local [] []
      [{ path := "a.md", mtime := 200, isDeleted := false }] "a.md" 200
      (by omega) (by rfl) (by rfl)).2 (fun t h => Option.noConfusion h)

/-- C5: reconciling a journal snapshot against an identical copy of itself
(same paths, same mtimes, same tombstone flags, local files matching the
non-tombstone entries) produces an empty change list: zero push, pull or
delete actions. -/
theorem reconcile_self_zero_actions (journal : Journal)
    (hnodup : (journal.map Prod.fst).Nodup) :
    handleSyncResponseChanges (vaultOfJournal journal) journal
      (snapshotOfJournal journal) = [] := by
  unfold handleSyncResponseChanges
  dsimp only
  rw [List.append_eq_nil]
  constructor
  · rw [List.flatMap_eq_nil_iff]
    intro rf hrf
    obtain ⟨⟨q, meta⟩, hjm, rfl⟩ := List.mem_map.mp hrf
    have hfe := findEntry_vaultOfJournal journal q meta hnodup hjm
    by_cases hdel : meta.is_deleted
    · simp [changesForRemote, hfe, hdel]
    · simp [changesForRemote, hfe, hdel, sub_self]
  · rw [List.filterMap_eq_nil_iff]
    intro f hf
    obtain ⟨e, he, hep⟩ := vaultFiles_mem_path _ f hf
    obtain ⟨⟨q, meta⟩, hqm, hlive, rfl⟩ := vaultOfJournal_mem journal e he
    have hq : q = f.1 := hep
    have hany : ((snapshotOfJournal journal).any fun rf => rf.path == f.1) = true := by
      apply List.any_eq_true.mpr
      refine ⟨{ path := q, mtime := meta.mtime, isDeleted := meta.is_deleted }, ?_, ?_⟩
      · exact List.mem_map.mpr ⟨(q, meta), hqm, rfl⟩
      · simp [hq]
    simp [hany]

/-- C5 witness: a two-entry journal (one live file, one tombstone) reconciled
against itself yields no actions. -/
theorem reconcile_self_zero_actions_witness :
    handleSyncResponseChanges
      (vaultOfJournal [("a.md", { mtime := 100, is_deleted := false }),
        ("b.md", { mtime := 200, is_deleted := true })])
      [("a.md", { mtime := 100, is_deleted := false }),
        ("b.md", { mtime := 200, is_deleted := true })]
      (snapshotOfJournal [("a.md", { mtime := 100, is_deleted := false }),
        ("b.md", { mtime := 200, is_deleted := true })]) = [] := by
  exact reconcile_self_zero_actions
    [("a.md", { mtime := 100, is_deleted := false }),
      ("b.md", { mtime := 200, is_deleted := true })] (by decide)

theorem foldl_insertChunk (msgs : List FileChunkMsg) (buf : List (Nat × FileChunkMsg))
    (h : (buf.map Prod.fst ++ msgs.map FileChunkMsg.chunkIndex).Nodup) :
    msgs.foldl insertChunk buf = buf ++ msgs.map (fun m => (m.chunkIndex, m)) := by
  induction msgs generalizing buf with
  | nil => simp
  | cons m rest ih =>
    have hnotin : m.chunkIndex ∉ buf.map Prod.fst := by
      intro hmem
      rcases List.nodup_append.mp h with ⟨_, _, hdisj⟩
      exact hdisj hmem (by simp)
    have hany : (buf.any fun e => e.1 == m.chunkIndex) = false := by
      rw [List.any_eq_false]
      intro e he
      simp only [beq_iff_eq]
      intro heq
      exact hnotin (heq ▸ List.mem_map.mpr ⟨e, he, rfl⟩)
    have hins : insertChunk buf m = buf ++ [(m.chunkIndex, m)] := by
      simp [insertChunk, hany]
    rw [List.foldl_cons, hins, ih (buf ++ [(m.chunkIndex, m)]) (by simpa using h)]
    simp

/-- C7: the reassembled file content is independent of chunk arrival order:
for any two arrival sequences that are permutations of the same complete
chunk set (with distinct chunk indices), buffering via the `FILE_CHUNK`
handler and running `reassembleAndWrite` yields byte-for-byte the same
written content. -/
theorem reassemble_order_independent (msgs1 msgs2 : List FileChunkMsg) (sessionKey : String)
    (hperm : msgs1.Perm msgs2)
    (hnodup : (msgs1.map FileChunkMsg.chunkIndex).Nodup) :
    reassembleAndWrite (deliverChunks msgs1) sessionKey =
      reassembleAndWrite (deliverChunks msgs2) sessionKey := by
  have hnodup2 : (msgs2.map FileChunkMsg.chunkIndex).Nodup :=
    (hperm.map FileChunkMsg.chunkIndex).nodup_iff.mp hnodup
  have hd1 : deliverChunks msgs1 = msgs1.map (fun m => (m.chunkIndex, m)) := by
    unfold deliverChunks
    simpa using foldl_insertChunk msgs1 [] (by simpa using hnodup)
  have hd2 : deliverChunks msgs2 = msgs2.map (fun m => (m.chunkIndex, m)) := by
    unfold deliverChunks
    simpa using foldl_insertChunk msgs2 [] (by simpa using hnodup2)
  rw [hd1, hd2]
  have hbperm : (msgs1.map (fun m => (m.chunkIndex, m))).Perm
      (msgs2.map (fun m => (m.chunkIndex, m))) := hperm.map _
  have hkeys1 : ((msgs1.map (fun m => (m.chunkIndex, m))).map Prod.fst).Nodup := by
    simpa [List.map_map, Function.comp] using hnodup
  have hkeys2 : ((msgs2.map (fun m => (m.chunkIndex, m))).map Prod.fst).Nodup := by
    simpa [List.map_map, Function.comp] using hnodup2
  haveI hto : IsTotal (Nat × FileChunkMsg) (fun a b => a.1 ≤ b.1) :=
    ⟨fun a b => Nat.le_total a.1 b.1⟩
  haveI htr : IsTrans (Nat × FileChunkMsg) (fun a b => a.1 ≤ b.1) :=
    ⟨fun _ _ _ => Nat.le_trans⟩
  haveI hanti : IsAntisymm (Nat × FileChunkMsg) (fun a b => a.1 < b.1) :=
    ⟨fun _ _ h1 h2 => absurd h2 (Nat.lt_asymm h1)⟩
  have hsorteq :
      (msgs1.map (fun m => (m.chunkIndex, m))).insertionSort (fun a b => a.1 ≤ b.1) =
      (msgs2.map (fun m => (m.chunkIndex, m))).insertionSort (fun a b => a.1 ≤ b.1) := by
    have hperm12 :
        ((msgs1.map (fun m => (m.chunkIndex, m))).insertionSort
          (fun a b => a.1 ≤ b.1)).Perm
        ((msgs2.map (fun m => (m.chunkIndex, m))).insertionSort (fun a b => a.1 ≤ b.1)) :=
      (List.perm_insertionSort _ _).trans (hbperm.trans (List.perm_insertionSort _ _).symm)
    have hstrict : ∀ (l : List FileChunkMsg),
        ((l.map (fun m => (m.chunkIndex, m))).map Prod.fst).Nodup →
        List.Sorted (fun a b : Nat × FileChunkMsg => a.1 < b.1)
          ((l.map (fun m => (m.chunkIndex, m))).insertionSort (fun a b => a.1 ≤ b.1)) := by
      intro l hk
      have hs : List.Sorted (fun a b : Nat × FileChunkMsg => a.1 ≤ b.1)
          ((l.map (fun m => (m.chunkIndex, m))).insertionSort (fun a b => a.1 ≤ b.1)) :=
        List.sorted_insertionSort _ _
      have hknd : (((l.map (fun m => (m.chunkIndex, m))).insertionSort
          (fun a b => a.1 ≤ b.1)).map Prod.fst).Nodup :=
        ((List.perm_insertionSort _ _).map Prod.fst).nodup_iff.mpr hk
      have hne : List.Pairwise (fun a b : Nat × FileChunkMsg => a.1 ≠ b.1)
          ((l.map (fun m => (m.chunkIndex, m))).insertionSort (fun a b => a.1 ≤ b.1)) :=
        List.pairwise_map.mp hknd
      exact (hs.and hne).imp (fun hab => lt_of_le_of_ne hab.1 hab.2)
    exact List.eq_of_perm_of_sorted hperm12 (hstrict msgs1 hkeys1) (hstrict msgs2 hkeys2)
  unfold reassembleAndWrite
  rw [hsorteq]

/-- C7 witness: a 3-chunk file delivered in order `[2, 0, 1]` reassembles to
exactly the same bytes as delivered in order `[0, 1, 2]`. -/
theorem reassemble_order_independent_witness :
    reassembleAndWrite (deliverChunks
        [{ filePath := "n.md", chunkIndex := 2, totalChunks := 3, data := encrypt_data "k" [5] },
         { filePath := "n.md", chunkIndex := 0, totalChunks := 3, data := encrypt_data "k" [1, 2] },
         { filePath := "n.md", chunkIndex := 1, totalChunks := 3, data := encrypt_data "k" [3] }])
      "k" =
    reassembleAndWrite (deliverChunks
        [{ filePath := "n.md", chunkIndex := 0, totalChunks := 3, data := encrypt_data "k" [1, 2] },
         { filePath := "n.md", chunkIndex := 1, totalChunks := 3, data := encrypt_data "k" [3] },
         { filePath := "n.md", chunkIndex := 2, totalChunks := 3, data := encrypt_data "k" [5] }])
      "k" := by
  exact reassemble_order_independent
    [{ filePath := "n.md", chunkIndex := 2, totalChunks := 3, data := encrypt_data "k" [5] },
     { filePath := "n.md", chunkIndex := 0, totalChunks := 3, data := encrypt_data "k" [1, 2] },
     { filePath := "n.md", chunkIndex := 1, totalChunks := 3, data := encrypt_data "k" [3] }]
    [{ filePath := "n.md", chunkIndex := 0, totalChunks := 3, data := encrypt_data "k" [1, 2] },
     { filePath := "n.md", chunkIndex := 1, totalChunks := 3, data := encrypt_data "k" [3] },
     { filePath := "n.md", chunkIndex := 2, totalChunks := 3, data := encrypt_data "k" [5] }]
    "k" (by decide) (by decide)

theorem handleFileChunk_chunks (st : Option IncomingTransfer) (m : FileChunkMsg) :
    (handleFileChunk st m).chunks =
      insertChunk (match st with | some t => t.chunks | none => []) m := by
  cases st <;> (unfold handleFileChunk; dsimp only; split <;> rfl)

theorem handleFileChunk_total (st : Option IncomingTransfer) (m : FileChunkMsg) :
    (handleFileChunk st m).total =
      (match st with | some t => t.total | none => m.totalChunks) := by
  cases st <;> (unfold handleFileChunk; dsimp only; split <;> rfl)

theorem handleFileChunk_progress (st : Option IncomingTransfer) (m : FileChunkMsg) :
    (handleFileChunk st m).progress =
      if (insertChunk (match st with | some t => t.chunks | none => []) m).length =
          (match st with | some t => t.total | none => m.totalChunks) then (1 : Rat)
      else ((m.chunkIndex : Rat) + 1) / (m.totalChunks : Rat) := by
  cases st <;> (unfold handleFileChunk; dsimp only; split <;> simp_all)

theorem handleFileChunks_range (f : Nat → FileChunkMsg) (n : Nat)
    (hidx : ∀ i, (f i).chunkIndex = i) (htot : ∀ i, (f i).totalChunks = n) :
    ∀ k, 0 < k → k ≤ n →
    ∃ st, handleFileChunks ((List.range k).map f) = some st ∧
      st.chunks = (List.range k).map (fun i => (i, f i)) ∧
      st.total = n ∧ st.progress = (k : Rat) / (n : Rat) := by
  intro k
  induction k with
  | zero => intro h; exact absurd h (by simp)
  | succ k ih =>
    intro _ hkn
    rcases Nat.eq_zero_or_pos k with rfl | hkpos
    · -- first chunk: index 0
      have hins : insertChunk [] (f 0) = [(0, f 0)] := by
        simp [insertChunk, hidx 0]
      have hr1 : List.range 1 = [0] := rfl
      refine ⟨handleFileChunk none (f 0),
        by rw [hr1]; simp [handleFileChunks], ?_, ?_, ?_⟩
      · rw [handleFileChunk_chunks, hr1]
        simpa using hins
      · rw [handleFileChunk_total]
        exact htot 0
      · rw [handleFileChunk_progress]
        dsimp only
        rw [hins, htot 0, hidx 0]
        simp only [List.length_singleton]
        by_cases h1n : 1 = n
        · rw [if_pos h1n, ← h1n]
          norm_num
        · rw [if_neg h1n]
          norm_num
    · obtain ⟨st, hst, hchunks, htotal, hprog⟩ := ih hkpos (Nat.le_of_succ_le hkn)
      have hany : (st.chunks.any fun e => e.1 == (f k).chunkIndex) = false := by
        rw [List.any_eq_false]
        intro e he
        rw [hchunks] at he
        obtain ⟨i, hi, rfl⟩ := List.mem_map.mp he
        have hik : i < k := List.mem_range.mp hi
        simp only [hidx k, beq_iff_eq]
        omega
      have hins : insertChunk st.chunks (f k) = st.chunks ++ [((f k).chunkIndex, f k)] := by
        simp [insertChunk, hany]
      have hlen : (insertChunk st.chunks (f k)).length = k + 1 := by
        rw [hins, hchunks]; simp
      have hfold : handleFileChunks ((List.range (k + 1)).map f) =
          some (handleFileChunk (some st) (f k)) := by
        rw [List.range_succ, List.map_append, List.map_singleton]
        unfold handleFileChunks at hst ⊢
        rw [List.foldl_append, hst]
        simp
      refine ⟨handleFileChunk (some st) (f k), hfold, ?_, ?_, ?_⟩
      · rw [handleFileChunk_chunks]
        rw [hins, hchunks, hidx k, List.range_succ]
        simp
      · rw [handleFileChunk_total]
        exact htotal
      · rw [handleFileChunk_progress]
        dsimp only
        rw [hlen, htotal, hidx k, htot k]
        by_cases heq : k + 1 = n
        · rw [if_pos heq, ← heq]
          rw [eq_comm]
          rw [div_eq_one_iff_eq (by positivity)]
        · rw [if_neg heq]
          push_cast
          ring

/-- C8 counterexample: in a 2-chunk transfer whose chunk with index 1
arrives first, after handling that single `FILE_CHUNK` the buffer holds one
of two chunks but the exposed progress is `(1 + 1) / 2 = 1`, not the claimed
`receivedChunks / totalChunks = 1 / 2`. -/
theorem progress_counterexample :
    (handleFileChunk none
        { filePath := "a", chunkIndex := 1, totalChunks := 2,
          data := encrypt_data "k" [7] }).progress = 1 ∧
    (handleFileChunk none
        { filePath := "a", chunkIndex := 1, totalChunks := 2,
          data := encrypt_data "k" [7] }).chunks.length = 1 ∧
    (handleFileChunk none
        { filePath := "a", chunkIndex := 1, totalChunks := 2,
          data := encrypt_data "k" [7] }).total = 2 ∧
    (handleFileChunk none
        { filePath := "a", chunkIndex := 1, totalChunks := 2,
          data := encrypt_data "k" [7] }).progress ≠
      ((handleFileChunk none
          { filePath := "a", chunkIndex := 1, totalChunks := 2,
            data := encrypt_data "k" [7] }).chunks.length : Rat) /
        ((handleFileChunk none
          { filePath := "a", chunkIndex := 1, totalChunks := 2,
            data := encrypt_data "k" [7] }).total : Rat) := by
  have hch : (handleFileChunk none
      { filePath := "a", chunkIndex := 1, totalChunks := 2,
        data := encrypt_data "k" [7] }).chunks =
      [(1, { filePath := "a", chunkIndex := 1, totalChunks := 2,
             data := encrypt_data "k" [7] })] := by
    rw [handleFileChunk_chunks]
    rfl
  refine ⟨?_, ?_, ?_, ?_⟩
  · rw [handleFileChunk_progress]
    norm_num [insertChunk]
  · rw [hch]
    rfl
  · rw [handleFileChunk_total]
  · rw [handleFileChunk_progress, handleFileChunk_total, hch]
    norm_num [insertChunk]

/-- C8 amended: the exposed progress after each handled `FILE_CHUNK` is
`(chunkIndex + 1) / totalChunks` (and `1` on completion); it equals the
claimed `receivedChunks / totalChunks` whenever the chunks of a transfer
arrive in increasing index order — after the first `k` of `n` in-order
chunks the buffer holds `k` chunks and the progress is `k / n`. -/
theorem progress_in_order (f : Nat → FileChunkMsg) (n k : Nat)
    (hidx : ∀ i, (f i).chunkIndex = i) (htot : ∀ i, (f i).totalChunks = n)
    (hk : 0 < k) (hkn : k ≤ n) :
    ∃ st, handleFileChunks ((List.range k).map f) = some st ∧
      st.chunks.length = k ∧
      st.progress = (st.chunks.length : Rat) / (st.total : Rat) := by
  obtain ⟨st, hst, hchunks, htotal, hprog⟩ := handleFileChunks_range f n hidx htot k hk hkn
  refine ⟨st, hst, ?_, ?_⟩
  · rw [hchunks]; simp
  · rw [hprog, hchunks, htotal]; simp

/-- C8 witness: delivering chunks 0 and 1 of a 3-chunk transfer in order
leaves a buffer of 2 chunks and progress 2/3. -/
theorem progress_in_order_witness :
    ∃ st, handleFileChunks ((List.range 2).map (fun i =>
        { filePath := "a", chunkIndex := i, totalChunks := 3,
          data := encrypt_data "k" [] })) = some st ∧
      st.chunks.length = 2 ∧
      st.progress = (st.chunks.length : Rat) / (st.total : Rat) := by
  exact progress_in_order
    (fun i => { filePath := "a", chunkIndex := i, totalChunks := 3,
                data := encrypt_data "k" [] }) 3 2 (fun i => rfl) (fun i => rfl)
    (by decide) (by decide)

/-- C9: a `PairingResponse` addressed to the initiator's pending request but
whose signature was computed over a different `requestId` fails signature
verification: the pending pairing promise is rejected with the
invalid-signature error, no `pairing_success` event is emitted, and the
paired-device list is unchanged (no trust record is created). -/
theorem pairingResponse_wrong_requestId (myPublicKey : String)
    (pending pairedDevices : List String) (msg : PairingResponsePayload)
    (sk rid2 : String)
    (hpend : msg.requestId ∈ pending)
    (hacc : msg.status = .accepted)
    (hsig : msg.signature = sign sk (rid2 ++ myPublicKey))
    (hne : rid2 ≠ msg.requestId) :
    (handlePairingResponse myPublicKey pending msg).outcome =
      some .rejectedInvalidSignature ∧
    (handlePairingResponse myPublicKey pending msg).events = [] ∧
    applyPairingEvents (handlePairingResponse myPublicKey pending msg).events
      pairedDevices = pairedDevices := by
  have hd : (rid2 ++ myPublicKey) ≠ (msg.requestId ++ myPublicKey) := fun h =>
    hne (string_append_right_cancel h)
  have hver : verify_signature msg.responderPublicKey (msg.requestId ++ myPublicKey)
      msg.signature = false := by
    rw [hsig]
    simp [verify_signature, sign, hd]
  refine ⟨?_, ?_, ?_⟩ <;>
    simp [handlePairingResponse, hpend, hacc, hver, applyPairingEvents]

/-- C9 witness: pending request `"r1"`, response carrying `requestId = "r1"`
but a signature over `"r2" ++ myPublicKey`: rejected as invalid signature, no
event, paired devices untouched. -/
theorem pairingResponse_wrong_requestId_witness :
    (handlePairingResponse "mpk" ["r1"]
        { requestId := "r1", responderDeviceId := "dB", responderName := "B",
          responderPublicKey := "pk:skB", signature := sign "skB" ("r2" ++ "mpk"),
          status := .accepted }).outcome = some .rejectedInvalidSignature ∧
    (handlePairingResponse "mpk" ["r1"]
        { requestId := "r1", responderDeviceId := "dB", responderName := "B",
          responderPublicKey := "pk:skB", signature := sign "skB" ("r2" ++ "mpk"),
          status := .accepted }).events = [] ∧
    applyPairingEvents (handlePairingResponse "mpk" ["r1"]
        { requestId := "r1", responderDeviceId := "dB", responderName := "B",
          responderPublicKey := "pk:skB", signature := sign "skB" ("r2" ++ "mpk"),
          status := .accepted }).events ["dX"] = ["dX"] := by
  exact pairingResponse_wrong_requestId "mpk" ["r1"] ["dX"]
    { requestId := "r1", responderDeviceId := "dB", responderName := "B",
      responderPublicKey := "pk:skB", signature := sign "skB" ("r2" ++ "mpk"),
      status := .accepted } "skB" "r2" (by decide) rfl rfl (by decide)

theorem peersSet_has_self (ps : List (String × DiscoveredPeerData))
    (p : DiscoveredPeerData) : peersHas (peersSet ps p) p.id = true := by
  unfold peersHas peersSet
  split
  · rename_i hex
    obtain ⟨e, he, hbe⟩ := List.any_eq_true.mp hex
    apply List.any_eq_true.mpr
    exact ⟨(p.id, p), List.mem_map.mpr ⟨e, he, by simp [hbe]⟩, by simp⟩
  · apply List.any_eq_true.mpr
    exact ⟨(p.id, p), by simp, by simp⟩

theorem peersSet_preserves (ps : List (String × DiscoveredPeerData))
    (p : DiscoveredPeerData) (x : String) (h : peersHas ps x = true) :
    peersHas (peersSet ps p) x = true := by
  unfold peersHas at h ⊢
  unfold peersSet
  obtain ⟨e, he, hbe⟩ := List.any_eq_true.mp h
  split
  · apply List.any_eq_true.mpr
    by_cases hep : (e.1 == p.id) = true
    · refine ⟨(p.id, p), List.mem_map.mpr ⟨e, he, by simp [hep]⟩, ?_⟩
      have h1 : e.1 = p.id := by simpa using hep
      have h2 : e.1 = x := by simpa using hbe
      have h3 : p.id = x := h1 ▸ h2
      simp [h3]
    · exact ⟨e, List.mem_map.mpr ⟨e, he, by simp [hep]⟩, hbe⟩
  · apply List.any_eq_true.mpr
    exact ⟨e, List.mem_append_left _ he, hbe⟩

theorem covered_after_set (s : DiscoveryState) (p : DiscoveredPeerData)
    (h : TimersCovered s) :
    TimersCovered { peers := peersSet s.peers p,
                    ttlTimers := resetPeerTTL s.ttlTimers p.id,
                    isDiscovering := s.isDiscovering } := by
  intro id hid
  dsimp only at hid ⊢
  unfold resetPeerTTL at hid
  rcases List.mem_append.mp hid with h1 | h2
  · exact peersSet_preserves _ _ _ (h id (List.mem_of_mem_filter h1))
  · have h3 : id = p.id := by simpa using h2
    rw [h3]
    exact peersSet_has_self _ _

/-- C10: the discovery-service invariant "every peer id with an active TTL
timer is a key of the peer table" is preserved by every public operation
(announcement handling, `addPeer`, `removePeer` — which is also what a TTL
expiry callback runs —, `startDiscovery`, `stopDiscovery`, `clearPeers`);
hence a TTL expiry can never fire for a peer absent from the table. -/
theorem discovery_timers_covered (s : DiscoveryState) (op : DiscoveryOp)
    (h : TimersCovered s) : TimersCovered (discoveryStep s op) := by
  cases op with
  | handleAnnouncement p b =>
    cases b with
    | false => exact h
    | true => exact covered_after_set s p h
  | addPeer p => exact covered_after_set s p h
  | removePeer peerId =>
    dsimp only [discoveryStep]
    unfold removePeerStep
    split
    · intro id hid
      dsimp only at hid ⊢
      unfold clearPeerTTLTimer at hid
      have hmem := List.mem_of_mem_filter hid
      have hne : id ≠ peerId := by simpa using List.of_mem_filter hid
      have hp := h id hmem
      unfold peersHas at hp ⊢
      obtain ⟨e, he, hbe⟩ := List.any_eq_true.mp hp
      apply List.any_eq_true.mpr
      refine ⟨e, List.mem_filter.mpr ⟨he, ?_⟩, hbe⟩
      have h1 : e.1 = id := by simpa using hbe
      simp [h1, hne]
    · exact h
  | startDiscovery =>
    dsimp only [discoveryStep]
    split
    · exact h
    · exact h
  | stopDiscovery =>
    dsimp only [discoveryStep]
    split
    · intro id hid
      dsimp only at hid
      simp at hid
    · exact h
  | clearPeers =>
    intro id hid
    dsimp only [discoveryStep] at hid
    simp at hid

/-- C10 witness: a one-peer state with a live TTL timer satisfies the
invariant, and it is preserved across a `removePeer` of that peer. -/
theorem discovery_timers_covered_witness :
    TimersCovered (discoveryStep
      { peers := [("p1", { id := "p1", name := "Laptop", device_id := "dA",
                           last_seen_timestamp := 0, addresses := ["10.0.0.2"],
                           service_port := 7000 })],
        ttlTimers := ["p1"], isDiscovering := true }
      (.removePeer "p1")) := by
  exact discovery_timers_covered
    { peers := [("p1", { id := "p1", name := "Laptop", device_id := "dA",
                         last_seen_timestamp := 0, addresses := ["10.0.0.2"],
                         service_port := 7000 })],
      ttlTimers := ["p1"], isDiscovering := true }
    (.removePeer "p1") (by unfold TimersCovered; decide)

end P2PSync
